import Mathlib

/-!
# dm: command dispatch, help and exit-status bookkeeping

A shallow embedding of `dm.go` (package `main` of dgnorton/dm).

Conventions of the embedding

* Go strings are Lean `String`s; `strings.Index` is modelled on the list of
  characters.  The only separator the program searches for is the one-byte
  string `" "`, so character positions and byte positions select the same cut.
* Go `int` values that are only compared and stored (the exit status) are `Int`.
* Package-level variables (`exitStatus`, `atexitFuncs`) and the part of the
  operating system the program touches (home directory lookup, the working
  directory, the config file) form the explicit state `World`.
* Closures registered with `atexit` are identified by a number; what they do is
  given by an interpretation `act : Nat → World → RunResult`: called in a state,
  a closure returns in a new state or ends the process itself.
* A process ends in a `Termination`; everything observable that `main` does on
  the way is collected in an `Outcome`.
-/

namespace Dm

/-! ## Configuration and the operating-system state -/

/-- The `config` struct. -/
structure config where
  User : String
  deriving DecidableEq

/-- The package variable `defaultConfig`. -/
def defaultConfig : config := ⟨""⟩

/-- Result of `os.Stat` on the working directory. -/
inductive StatResult
  | dir       -- exists and is a directory
  | file      -- exists and is not a directory
  | notExist  -- error satisfying `os.IsNotExist`
  | err       -- any other error
  deriving DecidableEq

/-- What `ioutil.ReadFile` followed by `json.Unmarshal` yields for the config file. -/
inductive FileState
  | absent                -- `ReadFile` fails with an `os.IsNotExist` error
  | unreadable            -- `ReadFile` fails with another error
  | corrupt               -- the bytes are read but `json.Unmarshal` fails
  | holds (c : config)    -- the bytes decode to `c`
  deriving DecidableEq

/-- The mutable state a run works on: the operating-system facts the program
reads or changes and the two package-level variables. -/
structure World where
  /-- Whether `user.Current()` succeeds. -/
  homeOk : Bool
  /-- Result of `os.Stat` on the working directory. -/
  workDir : StatResult
  /-- Whether `os.MkdirAll` of the working directory succeeds on a free path. -/
  mkdirOk : Bool
  /-- State of the config file. -/
  cfgFile : FileState
  /-- Whether `ioutil.WriteFile` of the config file succeeds. -/
  writeOk : Bool
  /-- Package variable `exitStatus`. -/
  exitStatus : Int
  /-- Package variable `atexitFuncs`, each closure named by a number. -/
  atexitFuncs : List Nat
  deriving DecidableEq

/-- The state at process start: `var exitStatus = 0`, `var atexitFuncs []func()`. -/
def World.start (homeOk : Bool) (workDir : StatResult) (mkdirOk : Bool)
    (cfgFile : FileState) (writeOk : Bool) : World :=
  ⟨homeOk, workDir, mkdirOk, cfgFile, writeOk, 0, []⟩

/-! ## Commands -/

/-- What a call of an entry point `Run` or of a cleanup closure does: it comes
back to its caller, or it ends the process itself (`os.Exit`, `log.Fatalf`,
`cmd.Usage()`, a panic) with some status. -/
inductive RunResult
  | returned (w : World)
  | exited (code : Int) (w : World)
  deriving DecidableEq

/-- The state a call leaves behind. -/
def RunResult.world : RunResult → World
  | .returned w => w
  | .exited _ w => w

/-- The `Command` struct.  `Run = none` is the nil function.  The field `Flag`
is the flag set seen through `Parse`: on the arguments after the command name
it yields `some` of what `Flag.Args()` then returns, or `none` when parsing fails
(the flag package then calls `Flag.Usage`).  The `cmd` argument of `Run` is the
descriptor itself and is left implicit. -/
structure Command where
  Run : Option (config → List String → World → RunResult)
  UsageLine : String
  Short : String
  Long : String
  Flag : List String → Option (List String)

/-- Go `strings.Index(s, sep)` on character lists: the first position at which
`sep` starts in `s`, or `-1`. -/
def stringsIndex (s sep : List Char) : Int :=
  if sep.isPrefixOf s then 0
  else
    match s with
    | [] => -1
    | _ :: t =>
      let i := stringsIndex t sep
      if i < 0 then -1 else i + 1

/-- Method `Command.Name`: the usage line up to the first space. -/
def Command.Name (c : Command) : String :=
  let name := c.UsageLine
  let i := stringsIndex name.data [' ']
  if i ≥ 0 then String.mk (name.data.take i.toNat) else name

/-- Method `Command.Runnable`: `c.Run != nil`. -/
def Command.Runnable (c : Command) : Bool :=
  c.Run.isSome

/-! ## Exit status and cleanup actions -/

/-- Function `setExitStatus`: raise `exitStatus` to `n` when it is below `n`. -/
def setExitStatus (n : Int) (w : World) : World :=
  if w.exitStatus < n then { w with exitStatus := n } else w

/-- Function `errorf`: log the message, then `setExitStatus(1)`. -/
def errorf (w : World) : World :=
  setExitStatus 1 w

/-- Function `atexit`: append `f` to `atexitFuncs`. -/
def atexit (f : Nat) (w : World) : World :=
  { w with atexitFuncs := w.atexitFuncs ++ [f] }

/-- How the process ends. -/
inductive Termination
  | exit (code : Int)   -- `os.Exit(code)`
  | fatal               -- `log.Fatalf`: the message is logged, then `os.Exit(1)`
  | returned            -- `main` returns
  deriving DecidableEq

/-- The status the process ends with, as the program passes it on: the argument
of `os.Exit`, 1 for `log.Fatalf`, 0 when `main` returns.  What the operating
system keeps of a status outside 0..255 is not modelled. -/
def Termination.code : Termination → Int
  | .exit c => c
  | .fatal => 1
  | .returned => 0

/-- The reasons for which `main` calls `log.Fatalf`. -/
inductive Fatal
  | workDir     -- `workDir()` failed in `makeWorkDir`
  | stat        -- `isDir` failed in `makeWorkDir`
  | mkdir       -- `os.MkdirAll` failed in `makeWorkDir`
  | loadConfig  -- `loadConfig` failed with an error other than "does not exist"
  | saveConfig  -- writing the default config failed
  | noUser      -- `cfg.User == ""` after the merge
  deriving DecidableEq

/-- The text `main` passes to `log.Fatalf` when no user is set. -/
def noUserMessage : String :=
  "No user set.  Either use the \x27dm user <user name>\x27 command or\nthe \x27-u <user name>\x27 command line argument."

/-- What the program writes, in order. -/
inductive Output
  | usage                          -- stderr: the banner of `usage()`
  | printUsage (text : String)     -- stdout: `usageTemplate` rendered
  | helpTooMany                    -- stderr: "Too many arguments given."
  | helpTopic (idx : Nat)          -- stdout: `helpTemplate` rendered for `commands[idx]`
  | unknownHelpTopic (arg : String)    -- stderr: "Unknown help topic"
  | unknownSubcommand (arg : String)   -- stderr: "dm: unknown subcommand"
  | commandUsage (idx : Nat)       -- stderr: `commands[idx].Usage()`
  | fatal (f : Fatal)              -- the log line of `log.Fatalf`
  deriving DecidableEq

/-- One invocation of an entry point: `commands[idx].Run(cfg, cmd, args)`, started in `world`. -/
structure Call where
  idx : Nat
  cfg : config
  args : List String
  world : World
  deriving DecidableEq

/-- Everything a run does that can be observed. -/
structure Outcome where
  /-- Entry points invoked, in order. -/
  calls : List Call
  /-- Cleanup actions executed, in order. -/
  cleanups : List Nat
  /-- Messages written, in order. -/
  out : List Output
  /-- How the process ends. -/
  term : Termination
  /-- The state when it ends. -/
  world : World
  deriving DecidableEq

/-- The loop of `exit`: call the closures of the slice one after the other.
`log` collects the ones that have been called.  The third component is `some code`
when a closure ended the process with status `code`; the closures after it are
then not called. -/
def runAtexit (act : Nat → World → RunResult) :
    List Nat → World → List Nat → World × List Nat × Option Int
  | [], w, log => (w, log, none)
  | f :: fs, w, log =>
    match act f w with
    | .returned w1 => runAtexit act fs w1 (log ++ [f])
    | .exited code w1 => (w1, log ++ [f], some code)

/-- Function `exit`: range over `atexitFuncs` (the slice is read once, when the loop
starts, so a closure appended while the loop runs is not called), then
`os.Exit(exitStatus)`.  `calls` and `out` are what happened before. -/
def exit (act : Nat → World → RunResult) (calls : List Call) (out : List Output) (w : World) :
    Outcome :=
  match runAtexit act w.atexitFuncs w [] with
  | (w1, log, none) => ⟨calls, log, out, .exit w1.exitStatus, w1⟩
  | (w1, log, some code) => ⟨calls, log, out, .exit code, w1⟩

/-! ## Help -/

/-- The verb `%-11s`: pad with spaces on the right up to `n` characters. -/
def padRight (s : String) (n : Nat) : String :=
  s ++ String.mk (List.replicate (n - s.length) ' ')

/-- The text of `usageTemplate` before the range action. -/
def usageHead : String :=
  "dm is a command line tool for DailyMile.com.\n\nUsage:\n\n        dm [-u user name] command [arguments]\n\nThe commands are:\n"

/-- The text of `usageTemplate` after the range action. -/
def usageTail : String :=
  "\n\nUse \"dm help [topic]\" for more information about that topic.\n\n"

/-- The body of the range action of `usageTemplate` for one command. -/
def usageRow (c : Command) : String :=
  "\n    " ++ padRight c.Name 11 ++ " " ++ c.Short

/-- The range action of `usageTemplate`: for each command, the row if it is runnable. -/
def usageRows : List Command → String
  | [] => ""
  | c :: cs => (if c.Runnable then usageRow c else "") ++ usageRows cs

/-- Function `printUsage`: `usageTemplate` executed on `commands`. -/
def printUsage (commands : List Command) : String :=
  usageHead ++ usageRows commands ++ usageTail

/-- The loop of `help`: the position of the first command named `arg`. -/
def helpFind (arg : String) : List Command → Nat → Option Nat
  | [], _ => none
  | c :: cs, i => if c.Name = arg then some i else helpFind arg cs (i + 1)

/-- Function `help`: what is written, and `some t` when `help` ends the process itself
(`none` when it returns to `main`). -/
def help (commands : List Command) (args : List String) : List Output × Option Termination :=
  match args with
  | [] => ([.printUsage (printUsage commands)], none)
  | [arg] =>
    match helpFind arg commands 0 with
    | some i => ([.helpTopic i], none)
    | none => ([.unknownHelpTopic arg], some (.exit 2))
  | _ :: _ :: _ => ([.helpTooMany], some (.exit 2))

/-! ## Start-up -/

/-- Function `isDir` on the working directory: `none` is the error return. -/
def isDir (s : StatResult) : Option Bool :=
  match s with
  | .dir => some true
  | .file => some false
  | .notExist => some false
  | .err => none

/-- Call of `os.MkdirAll` on the working directory; `none` is the error return.  It fails
on a path that exists as a file. -/
def mkdirAll (w : World) : Option World :=
  match w.workDir with
  | .dir => some w
  | .file => none
  | _ => if w.mkdirOk then some { w with workDir := .dir } else none

/-- Function `makeWorkDir`: the error is the reason of the `log.Fatalf`. -/
def makeWorkDir (w : World) : Except Fatal World :=
  if !w.homeOk then .error .workDir
  else
    match isDir w.workDir with
    | none => .error .stat
    | some true => .ok w
    | some false =>
      match mkdirAll w with
      | none => .error .mkdir
      | some w1 => .ok w1

/-- The errors of `loadConfig` as `main` tells them apart. -/
inductive LoadErr
  | notExist   -- `os.IsNotExist(err)`
  | other
  deriving DecidableEq

/-- Function `loadConfig`.  When the home directory cannot be found `configFile` yields
the empty path, which does not exist. -/
def loadConfig (w : World) : Except LoadErr config :=
  if !w.homeOk then .error .notExist
  else
    match w.cfgFile with
    | .absent => .error .notExist
    | .unreadable => .error .other
    | .corrupt => .error .other
    | .holds c => .ok c

/-- Function `saveConfig`; `none` is the error return. -/
def saveConfig (c : config) (w : World) : Option World :=
  if w.homeOk && w.writeOk then some { w with cfgFile := .holds c } else none

/-- Lines 116 to 141 of `main`: make the working directory, load or seed the
configuration, merge the `-u` value, refuse an empty user.  The error is the
reason of the `log.Fatalf`, with the state reached. -/
def resolveConfig (mainUser : String) (w : World) : Except (Fatal × World) (config × World) :=
  match makeWorkDir w with
  | .error f => .error (f, w)
  | .ok w1 =>
    let loaded : Except (Fatal × World) (config × World) :=
      match loadConfig w1 with
      | .ok c => .ok (c, w1)
      | .error .notExist =>
        match saveConfig defaultConfig w1 with
        | none => .error (.saveConfig, w1)
        | some w2 => .ok (defaultConfig, w2)
      | .error .other => .error (.loadConfig, w1)
    match loaded with
    | .error e => .error e
    | .ok (cfg, w2) =>
      let cfg : config := if mainUser ≠ "" then { cfg with User := mainUser } else cfg
      if cfg.User = "" then .error (.noUser, w2) else .ok (cfg, w2)

/-! ## Dispatch -/

/-- The body of the `if` in the range loop of `main`, for the descriptor `c` at
position `i` whose entry point is `run`: parse the local flags (on failure the
flag set calls `Flag.Usage`, set to `c.Usage`, which ends the process with
status 2), call the entry point, then `exit()`. -/
def invoke (act : Nat → World → RunResult) (cfg : config) (rest : List String) (w : World)
    (i : Nat) (c : Command) (run : config → List String → World → RunResult) : Outcome :=
  match c.Flag rest with
  | none => ⟨[], [], [.commandUsage i], .exit 2, w⟩
  | some args =>
    match run cfg args w with
    | .returned w1 => exit act [⟨i, cfg, args, w⟩] [] w1
    | .exited code w1 => ⟨[⟨i, cfg, args, w⟩], [], [], .exit code, w1⟩

/-- The range loop of `main` over the commands from position `i` on, and the
lines after it.  `a` is `args[0]`, `rest` is `args[1:]`. -/
def dispatch (act : Nat → World → RunResult) (cfg : config) (a : String) (rest : List String)
    (w : World) : List Command → Nat → Outcome
  | [], _ => exit act [] [.unknownSubcommand a] (setExitStatus 2 w)
  | cmd :: cs, i =>
    if cmd.Name = a then
      match cmd.Run with
      | some run => invoke act cfg rest w i cmd run
      | none => dispatch act cfg a rest w cs (i + 1)
    else dispatch act cfg a rest w cs (i + 1)

/-- Function `main`, after `flag.Parse()`: `mainUser` is the value of `-u` (empty when
the flag is absent), `args` is `flag.Args()`. -/
def main (commands : List Command) (act : Nat → World → RunResult) (mainUser : String)
    (args : List String) (w : World) : Outcome :=
  match args with
  | [] => ⟨[], [], [.usage], .exit 2, w⟩
  | a :: rest =>
    if a = "help" then
      match help commands rest with
      | (out, some t) => ⟨[], [], out, t, w⟩
      | (out, none) => ⟨[], [], out, .returned, w⟩
    else
      match resolveConfig mainUser w with
      | .error (f, w1) => ⟨[], [], [.fatal f], .fatal, w1⟩
      | .ok (cfg, w1) => dispatch act cfg a rest w1 commands 0

/-! ## A flag set of the standard library -/

/-- The spellings `strconv.ParseBool` accepts. -/
def parseBoolOk (s : String) : Bool :=
  s ∈ ["1", "t", "T", "TRUE", "true", "True", "0", "f", "F", "FALSE", "false", "False"]

/-- Cut `name=value` at the first `=` that is not the first character. -/
def splitFlag : List Char → List Char × Option (List Char)
  | [] => ([], none)
  | c :: t =>
    match t.span (fun x => x != '=') with
    | (n, []) => (c :: n, none)
    | (n, _ :: v) => (c :: n, some v)

/-- Method `FlagSet.Parse` of package `flag` for a flag set whose flags are listed in
`formal` with `true` for a boolean flag and `false` for a string flag.  The first
argument is `some name` while the string flag `name` still waits for its value,
the second collects the assignments `Value.Set` makes, in order.  The result is
`some` of the assignments and of the arguments left over, or `none` when parsing
fails. -/
def flagSetParse (formal : List (String × Bool)) :
    Option String → List (String × String) → List String →
      Option (List (String × String) × List String)
  | some _, _, [] => none
  | some n, sets, v :: rest => flagSetParse formal none (sets ++ [(n, v)]) rest
  | none, sets, [] => some (sets, [])
  | none, sets, s :: rest =>
    match s.data with
    | '-' :: c :: t =>
      if c = '-' ∧ t = [] then some (sets, rest)
      else
        let name := if c = '-' then t else c :: t
        match name with
        | [] => none
        | n0 :: _ =>
          if n0 = '-' ∨ n0 = '=' then none
          else
            let nm := String.mk (splitFlag name).1
            match formal.lookup nm, (splitFlag name).2 with
            | none, _ => none
            | some true, some v =>
              if parseBoolOk (String.mk v) then
                flagSetParse formal none (sets ++ [(nm, String.mk v)]) rest
              else none
            | some true, none => flagSetParse formal none (sets ++ [(nm, "true")]) rest
            | some false, some v => flagSetParse formal none (sets ++ [(nm, String.mk v)]) rest
            | some false, none => flagSetParse formal (some nm) sets rest
    | _ => some (sets, s :: rest)

/-- What `Parse` followed by `Args()` gives for the flag set `formal`. -/
def flagParse (formal : List (String × Bool)) (args : List String) : Option (List String) :=
  (flagSetParse formal none [] args).map Prod.snd

/-- The value of the variable bound to flag `name` after the assignments `sets`,
starting from the default `dflt`. -/
def flagValue (name dflt : String) (sets : List (String × String)) : String :=
  sets.foldl (fun cur p => if p.1 = name then p.2 else cur) dflt

/-- Whether flag `name` was given on the command line. -/
def flagGiven (name : String) (sets : List (String × String)) : Bool :=
  sets.any (fun p => p.1 = name)

/-- The first lines of `main`: `flag.StringVar(&mainUser, "u", "", "")` and
`flag.Parse()` on the arguments of the process.  The result is `mainUser` and
`flag.Args()`, or `none` when the flag package ends the process on a parse error. -/
def parseCommandLine (argv : List String) : Option (String × List String) :=
  (flagSetParse [("u", false)] none [] argv).map (fun r => (flagValue "u" "" r.1, r.2))

/-- Function `main` from the arguments of the process; `none` when `flag.Parse()`
ends the process before the body of `main`. -/
def mainArgv (commands : List Command) (act : Nat → World → RunResult)
    (argv : List String) (w : World) : Option Outcome :=
  (parseCommandLine argv).map (fun r => main commands act r.1 r.2 w)

/-! ## Notions used in the statements -/

/-- A run of `setExitStatus` calls, one for each value of the list, in order. -/
def setExitStatusAll (l : List Int) (w : World) : World :=
  l.foldl (fun st n => setExitStatus n st) w

/-- The descriptor `c` stands at position `i` of the registry, is runnable and is
named `a`, and no descriptor before it is both. -/
def IsFirstMatch (commands : List Command) (a : String) (i : Nat) (c : Command) : Prop :=
  commands[i]? = some c ∧ c.Runnable = true ∧ c.Name = a ∧
    ∀ j d, j < i → commands[j]? = some d → ¬ (d.Runnable = true ∧ d.Name = a)

/-- Every closure of `fs` returns to its caller, in whatever state it is called. -/
def AllReturn (act : Nat → World → RunResult) (fs : List Nat) : Prop :=
  ∀ f ∈ fs, ∀ v, ∃ v1, act f v = .returned v1

/-! ## Sample data for the concrete instances -/

/-- An interpretation of the cleanup actions: action 7 raises the status to 3,
action 8 ends the process with status 4, action 9 registers action 10, every
other action returns without doing anything. -/
def sampleAct : Nat → World → RunResult :=
  fun f w =>
    if f = 7 then .returned (setExitStatus 3 w)
    else if f = 8 then .exited 4 w
    else if f = 9 then .returned (atexit 10 w)
    else .returned w

/-- An entry point that returns at once. -/
def sampleRun : config → List String → World → RunResult :=
  fun _ _ w => .returned w

/-- A runnable command named `user` whose flag set defines no flag. -/
def sampleUser : Command :=
  ⟨some sampleRun, "user <user name>", "set the user", "", flagParse []⟩

/-- A runnable command named `use`, with a boolean flag `v`. -/
def sampleUse : Command :=
  ⟨some sampleRun, "use [-v]", "use something", "", flagParse [("v", true)]⟩

/-- A help topic without entry point. -/
def sampleTopic : Command :=
  ⟨none, "topic", "a help topic", "", flagParse []⟩

/-- Process start with the working directory in place and a config file holding user `alice`. -/
def aliceWorld : World :=
  World.start true .dir true (.holds ⟨"alice"⟩) true

/-- Process start with the working directory in place and a config file holding an empty user. -/
def nobodyWorld : World :=
  World.start true .dir true (.holds ⟨""⟩) true

/-! ## Lemmas and theorems -/

theorem stringsIndex_space (s : List Char) :
    (' ' ∉ s ∧ stringsIndex s [' '] = -1) ∨
    (∃ p t, s = p ++ ' ' :: t ∧ ' ' ∉ p ∧ stringsIndex s [' '] = (p.length : Int)) := by
  induction s with
  | nil => left; simp [stringsIndex, List.isPrefixOf]
  | cons x t ih =>
    by_cases hx : x = ' '
    · right
      refine ⟨[], t, by simp [hx], by simp, ?_⟩
      subst hx
      simp [stringsIndex, List.isPrefixOf]
    · have hx' : ¬ (' ' = x) := fun h => hx h.symm
      rcases ih with ⟨hn, hi⟩ | ⟨p, t', hs, hp, hi⟩
      · left
        refine ⟨by simp [hn, hx'], ?_⟩
        rw [stringsIndex]
        simp [List.isPrefixOf, hx', hi]
      · right
        refine ⟨x :: p, t', by simp [hs], by simp [hp, hx'], ?_⟩
        rw [stringsIndex]
        simp [List.isPrefixOf, hx', hi]

theorem setExitStatus_exitStatus (n : Int) (w : World) :
    (setExitStatus n w).exitStatus = max w.exitStatus n := by
  unfold setExitStatus
  split
  · simp; omega
  · simp; omega

theorem setExitStatus_eq_with (n : Int) (w : World) :
    setExitStatus n w = { w with exitStatus := max w.exitStatus n } := by
  unfold setExitStatus
  split
  · rename_i h; rw [max_eq_right (le_of_lt h)]
  · rename_i h; rw [max_eq_left (not_lt.mp h)]

theorem setExitStatusAll_exitStatus (l : List Int) (w : World) :
    (setExitStatusAll l w).exitStatus = l.foldl max w.exitStatus := by
  induction l generalizing w with
  | nil => rfl
  | cons n t ih =>
    simp only [setExitStatusAll, List.foldl_cons] at ih ⊢
    rw [ih, setExitStatus_exitStatus]

theorem foldl_max_ge (l : List Int) (a : Int) :
    a ≤ l.foldl max a ∧ ∀ x ∈ l, x ≤ l.foldl max a := by
  induction l generalizing a with
  | nil => simp
  | cons n t ih =>
    simp only [List.foldl_cons, List.mem_cons]
    obtain ⟨h1, h2⟩ := ih (max a n)
    refine ⟨le_trans (le_max_left a n) h1, ?_⟩
    intro x hx
    rcases hx with rfl | hx
    · exact le_trans (le_max_right a x) h1
    · exact h2 x hx

theorem foldl_max_mem (l : List Int) (a : Int) :
    l.foldl max a = a ∨ l.foldl max a ∈ l := by
  induction l generalizing a with
  | nil => simp
  | cons n t ih =>
    simp only [List.foldl_cons, List.mem_cons]
    rcases ih (max a n) with h | h
    · rw [h]
      rcases max_choice a n with h' | h'
      · left; exact h'
      · right; left; exact h'
    · right; right; exact h

theorem foldl_max_perm {l l' : List Int} (h : l.Perm l') (a : Int) :
    l.foldl max a = l'.foldl max a := by
  induction h generalizing a with
  | nil => rfl
  | cons x _ ih => simp only [List.foldl_cons]; exact ih _
  | swap x y t =>
    simp only [List.foldl_cons]
    rw [max_assoc, max_comm y x, ← max_assoc]
  | trans _ _ ih1 ih2 => rw [ih1, ih2]

/-- C10. `Command.Name` is the longest prefix of the usage line without a space. -/
theorem Name_is_longest_spaceless_start (c : Command) :
    ' ' ∉ c.Name.data ∧
    (c.UsageLine = c.Name ∨ ∃ t, c.UsageLine.data = c.Name.data ++ ' ' :: t) ∧
    (∀ p t, c.UsageLine.data = p ++ t → ' ' ∉ p → p.length ≤ c.Name.data.length) ∧
    (' ' ∉ c.UsageLine.data → c.Name = c.UsageLine) ∧
    (∀ t, c.UsageLine.data = ' ' :: t → c.Name = "") := by
  rcases stringsIndex_space c.UsageLine.data with ⟨hn, hi⟩ | ⟨p, t, hs, hp, hi⟩
  · have hname : c.Name = c.UsageLine := by simp [Command.Name, hi]
    rw [hname]
    refine ⟨hn, Or.inl rfl, ?_, fun _ => rfl, ?_⟩
    · intro p t h _
      rw [h]; simp
    · intro t h
      rw [h] at hn
      simp at hn
  · have hname : c.Name = String.mk p := by
      unfold Command.Name
      simp only [hi]
      simp [hs]
    rw [hname]
    refine ⟨hp, Or.inr ⟨t, hs⟩, ?_, ?_, ?_⟩
    · intro q u h hq
      by_contra hlt
      simp only [not_le] at hlt
      have h1 : (p ++ ' ' :: t)[p.length]? = some ' ' := by
        rw [List.getElem?_append_right (le_refl _)]; simp
      rw [← hs, h, List.getElem?_append_left hlt] at h1
      exact hq (List.getElem?_mem h1)
    · intro h
      rw [hs] at h
      simp at h
    · intro u h
      rw [hs] at h
      cases p with
      | nil => rfl
      | cons x p' =>
        simp at h
        simp [h.1] at hp

theorem world_returned (v : World) : (RunResult.returned v).world = v := rfl

theorem runAtexit_returns (act : Nat → World → RunResult) (fs : List Nat) (w : World)
    (log : List Nat) (h : AllReturn act fs) :
    runAtexit act fs w log
      = (fs.foldl (fun st f => (act f st).world) w, log ++ fs, none) := by
  induction fs generalizing w log with
  | nil => simp [runAtexit]
  | cons f t ih =>
    obtain ⟨v, hv⟩ := h f (List.mem_cons_self _ _) w
    have ht : AllReturn act t := fun g hg => h g (List.mem_cons_of_mem _ hg)
    rw [runAtexit, hv]
    simp only [List.foldl_cons]
    rw [hv, world_returned, ih v (log ++ [f]) ht]
    simp only [List.append_assoc, List.singleton_append]

theorem runAtexit_stops (act : Nat → World → RunResult) (pre : List Nat) (f : Nat)
    (post : List Nat) (w : World) (log : List Nat) (code : Int) (v : World)
    (h : AllReturn act pre)
    (hf : act f (pre.foldl (fun st g => (act g st).world) w) = .exited code v) :
    runAtexit act (pre ++ f :: post) w log = (v, log ++ pre ++ [f], some code) := by
  induction pre generalizing w log with
  | nil =>
    simp only [List.foldl_nil] at hf
    simp [runAtexit, hf]
  | cons g t ih =>
    obtain ⟨u, hu⟩ := h g (List.mem_cons_self _ _) w
    have ht : AllReturn act t := fun k hk => h k (List.mem_cons_of_mem _ hk)
    simp only [List.foldl_cons] at hf
    rw [hu, world_returned] at hf
    rw [List.cons_append, runAtexit, hu]
    simp only
    rw [ih u (log ++ [g]) ht hf]
    simp only [List.append_assoc, List.singleton_append, List.cons_append, List.nil_append]

theorem runAtexit_log (act : Nat → World → RunResult) (fs : List Nat) (w : World)
    (log : List Nat) :
    ∃ k t, fs = k ++ t ∧ (runAtexit act fs w log).2.1 = log ++ k := by
  induction fs generalizing w log with
  | nil => exact ⟨[], [], rfl, by simp [runAtexit]⟩
  | cons f t ih =>
    rw [runAtexit]
    cases hf : act f w with
    | returned u =>
      simp only
      obtain ⟨k, r, hk, hl⟩ := ih u (log ++ [f])
      exact ⟨f :: k, r, by rw [hk]; rfl, by rw [hl]; simp⟩
    | exited code u =>
      exact ⟨[f], t, rfl, rfl⟩

theorem exit_calls (act : Nat → World → RunResult) (calls : List Call) (out : List Output)
    (w : World) : (exit act calls out w).calls = calls := by
  unfold exit
  split <;> rfl

theorem exit_cleanups (act : Nat → World → RunResult) (calls : List Call) (out : List Output)
    (w : World) : (exit act calls out w).cleanups = (runAtexit act w.atexitFuncs w []).2.1 := by
  unfold exit
  split <;> rename_i h <;> rw [h]

theorem exit_of_returns (act : Nat → World → RunResult) (calls : List Call)
    (out : List Output) (w : World) (h : AllReturn act w.atexitFuncs) :
    exit act calls out w
      = ⟨calls, w.atexitFuncs, out,
          .exit (w.atexitFuncs.foldl (fun st f => (act f st).world) w).exitStatus,
          w.atexitFuncs.foldl (fun st f => (act f st).world) w⟩ := by
  unfold exit
  rw [runAtexit_returns act _ w [] h]
  simp

theorem exit_of_stop (act : Nat → World → RunResult) (calls : List Call)
    (out : List Output) (w : World) (pre : List Nat) (f : Nat) (post : List Nat)
    (code : Int) (v : World) (hw : w.atexitFuncs = pre ++ f :: post)
    (h : AllReturn act pre)
    (hf : act f (pre.foldl (fun st g => (act g st).world) w) = .exited code v) :
    exit act calls out w = ⟨calls, pre ++ [f], out, .exit code, v⟩ := by
  unfold exit
  rw [hw, runAtexit_stops act pre f post w [] code v h hf]
  simp

theorem atexit_foldl_funcs (fs : List Nat) (w : World) :
    (fs.foldl (fun st f => atexit f st) w).atexitFuncs = w.atexitFuncs ++ fs ∧
    (fs.foldl (fun st f => atexit f st) w).exitStatus = w.exitStatus := by
  induction fs generalizing w with
  | nil => simp
  | cons f t ih =>
    simp only [List.foldl_cons]
    obtain ⟨h1, h2⟩ := ih (atexit f w)
    rw [h1, h2]
    simp [atexit]

/-- C3. `setExitStatus` takes the maximum: the status never goes down. -/
theorem setExitStatus_is_max (w : World) (n : Int) :
    (setExitStatus n w).exitStatus = max w.exitStatus n ∧
    setExitStatus n w = { w with exitStatus := max w.exitStatus n } ∧
    w.exitStatus ≤ (setExitStatus n w).exitStatus ∧
    (n ≤ w.exitStatus → setExitStatus n w = w) ∧
    (∀ m, n ≤ (setExitStatus m (setExitStatus n w)).exitStatus) ∧
    (0 ≤ n → (setExitStatus 0 (setExitStatus n w)).exitStatus = (setExitStatus n w).exitStatus) ∧
    (errorf (setExitStatus 2 w)).exitStatus = (setExitStatus 2 w).exitStatus := by
  have key : ∀ (v : World) (k : Int), (setExitStatus k v).exitStatus = max v.exitStatus k :=
    fun v k => setExitStatus_exitStatus k v
  refine ⟨key w n, ?_, ?_, ?_, ?_, ?_, ?_⟩
  · exact setExitStatus_eq_with n w
  · rw [key]; exact le_max_left _ _
  · intro h
    unfold setExitStatus
    rw [if_neg (not_lt.mpr h)]
  · intro m
    rw [key, key]
    exact le_trans (le_max_right _ _) (le_max_left _ _)
  · intro h
    rw [key, key]
    exact max_eq_left (le_trans h (le_max_right _ _))
  · unfold errorf
    rw [key, key]
    apply max_eq_left
    exact le_trans (by decide) (le_max_right _ _)

/-- C2, as amended. From status 0 a run of `setExitStatus` calls ends with the
maximum of 0 and the values passed, whatever their order. -/
theorem setExitStatusAll_from_zero (l : List Int) (w : World) (h0 : w.exitStatus = 0) :
    (setExitStatusAll l w).exitStatus = l.foldl max 0 ∧
    0 ≤ (setExitStatusAll l w).exitStatus ∧
    (∀ x ∈ l, x ≤ (setExitStatusAll l w).exitStatus) ∧
    ((setExitStatusAll l w).exitStatus = 0 ∨ (setExitStatusAll l w).exitStatus ∈ l) ∧
    ((∃ x ∈ l, 0 ≤ x) → (setExitStatusAll l w).exitStatus ∈ l) ∧
    (∀ l', l.Perm l' →
      (setExitStatusAll l' w).exitStatus = (setExitStatusAll l w).exitStatus) := by
  have e : ∀ k : List Int, (setExitStatusAll k w).exitStatus = k.foldl max 0 := by
    intro k; rw [setExitStatusAll_exitStatus, h0]
  rw [e]
  obtain ⟨g0, g1⟩ := foldl_max_ge l 0
  refine ⟨rfl, g0, g1, foldl_max_mem l 0, ?_, ?_⟩
  · rintro ⟨x, hx, hx0⟩
    rcases foldl_max_mem l 0 with h | h
    · have hxe : x = List.foldl max 0 l := le_antisymm (g1 x hx) (by rw [h]; exact hx0)
      rw [← hxe]; exact hx
    · exact h
  · intro l' hp
    rw [e, foldl_max_perm hp 0]

/-- C7, as amended. `exit` calls the actions registered before its loop starts
in registration order, each at most once, and all of them exactly once when each
returns; it then ends the process with the status tracked after the last one.  An
action that ends the process is the last one called. -/
theorem exit_runs_cleanups_in_order (act : Nat → World → RunResult) (calls : List Call)
    (out : List Output) (w : World) (fs : List Nat) :
    (fs.foldl (fun st f => atexit f st) { w with atexitFuncs := [] }).atexitFuncs = fs ∧
    (∃ t, w.atexitFuncs = (exit act calls out w).cleanups ++ t) ∧
    (AllReturn act w.atexitFuncs →
      (exit act calls out w).cleanups = w.atexitFuncs ∧
      (∀ f, (exit act calls out w).cleanups.count f = w.atexitFuncs.count f) ∧
      (exit act calls out w).world
        = w.atexitFuncs.foldl (fun st f => (act f st).world) w ∧
      (exit act calls out w).term = .exit (exit act calls out w).world.exitStatus) ∧
    (AllReturn act fs →
      (exit act calls out
        (fs.foldl (fun st f => atexit f st) { w with atexitFuncs := [] })).cleanups = fs) ∧
    (∀ pre f post code v, w.atexitFuncs = pre ++ f :: post → AllReturn act pre →
      act f (pre.foldl (fun st g => (act g st).world) w) = .exited code v →
      exit act calls out w = ⟨calls, pre ++ [f], out, .exit code, v⟩) := by
  have hreg := (atexit_foldl_funcs fs { w with atexitFuncs := [] }).1
  simp only [List.nil_append] at hreg
  refine ⟨hreg, ?_, ?_, ?_, ?_⟩
  · obtain ⟨k, t, hk, hl⟩ := runAtexit_log act w.atexitFuncs w []
    refine ⟨t, ?_⟩
    rw [exit_cleanups, hl, List.nil_append]
    exact hk
  · intro h
    rw [exit_of_returns act calls out w h]
    exact ⟨rfl, fun _ => rfl, rfl, rfl⟩
  · intro h
    rw [exit_of_returns act calls out _ (by rw [hreg]; exact h)]
    exact hreg
  · intro pre f post code v hw h hf
    exact exit_of_stop act calls out w pre f post code v hw h hf

theorem dispatch_no_match (act : Nat → World → RunResult) (cfg : config) (a : String)
    (rest : List String) (w : World) (cs : List Command) (i : Nat)
    (h : ∀ c ∈ cs, ¬ (c.Runnable = true ∧ c.Name = a)) :
    dispatch act cfg a rest w cs i = exit act [] [.unknownSubcommand a] (setExitStatus 2 w) := by
  induction cs generalizing i with
  | nil => rfl
  | cons c t ih =>
    have hc := h c (List.mem_cons_self _ _)
    have ht : ∀ d ∈ t, ¬ (d.Runnable = true ∧ d.Name = a) :=
      fun d hd => h d (List.mem_cons_of_mem _ hd)
    rw [dispatch]
    by_cases hn : c.Name = a
    · rw [if_pos hn]
      cases hr : c.Run with
      | none => simp only; exact ih _ ht
      | some run => exact absurd ⟨by simp [Command.Runnable, hr], hn⟩ hc
    · rw [if_neg hn]; exact ih _ ht

theorem dispatch_first_match (act : Nat → World → RunResult) (cfg : config) (a : String)
    (rest : List String) (w : World) (pre : List Command) (c : Command) (post : List Command)
    (i : Nat) (run : config → List String → World → RunResult)
    (hpre : ∀ d ∈ pre, ¬ (d.Runnable = true ∧ d.Name = a))
    (hn : c.Name = a) (hr : c.Run = some run) :
    dispatch act cfg a rest w (pre ++ c :: post) i
      = invoke act cfg rest w (i + pre.length) c run := by
  induction pre generalizing i with
  | nil =>
    simp only [List.nil_append, List.length_nil, Nat.add_zero]
    rw [dispatch, if_pos hn]
    simp only [hr]
  | cons d t ih =>
    have hd := hpre d (List.mem_cons_self _ _)
    have ht : ∀ e ∈ t, ¬ (e.Runnable = true ∧ e.Name = a) :=
      fun e he => hpre e (List.mem_cons_of_mem _ he)
    have step : dispatch act cfg a rest w (d :: (t ++ c :: post)) i
        = dispatch act cfg a rest w (t ++ c :: post) (i + 1) := by
      rw [dispatch]
      by_cases hdn : d.Name = a
      · rw [if_pos hdn]
        cases hdr : d.Run with
        | none => rfl
        | some r => exact absurd ⟨by simp [Command.Runnable, hdr], hdn⟩ hd
      · rw [if_neg hdn]
    rw [List.cons_append, step, ih _ ht]
    congr 1
    simp only [List.length_cons]; omega

theorem first_match_cases (cs : List Command) (a : String) :
    (∀ c ∈ cs, ¬ (c.Runnable = true ∧ c.Name = a)) ∨
    ∃ pre c post run, cs = pre ++ c :: post ∧
      (∀ d ∈ pre, ¬ (d.Runnable = true ∧ d.Name = a)) ∧ c.Name = a ∧ c.Run = some run := by
  induction cs with
  | nil => left; simp
  | cons c t ih =>
    by_cases hc : c.Runnable = true ∧ c.Name = a
    · right
      obtain ⟨hr, hn⟩ := hc
      cases hrun : c.Run with
      | none => simp [Command.Runnable, hrun] at hr
      | some run => exact ⟨[], c, t, run, rfl, by simp, hn, hrun⟩
    · rcases ih with h | ⟨pre, d, post, run, hcs, hpre, hn, hr⟩
      · left
        intro e he
        rcases List.mem_cons.mp he with rfl | he
        · exact hc
        · exact h e he
      · right
        refine ⟨c :: pre, d, post, run, by simp [hcs], ?_, hn, hr⟩
        intro e he
        rcases List.mem_cons.mp he with rfl | he
        · exact hc
        · exact hpre e he

theorem isFirstMatch_of_split (pre : List Command) (c : Command) (post : List Command)
    (a : String) (run : config → List String → World → RunResult)
    (hpre : ∀ d ∈ pre, ¬ (d.Runnable = true ∧ d.Name = a))
    (hn : c.Name = a) (hr : c.Run = some run) :
    IsFirstMatch (pre ++ c :: post) a pre.length c := by
  refine ⟨by rw [List.getElem?_append_right (le_refl _)]; simp, by simp [Command.Runnable, hr], hn, ?_⟩
  intro j d hj hd
  rw [List.getElem?_append_left hj] at hd
  exact hpre d (List.getElem?_mem hd)

theorem isFirstMatch_unique (cs : List Command) (a : String) (i j : Nat) (c d : Command)
    (h1 : IsFirstMatch cs a i c) (h2 : IsFirstMatch cs a j d) : i = j := by
  obtain ⟨hi, hir, hin, hib⟩ := h1
  obtain ⟨hj, hjr, hjn, hjb⟩ := h2
  rcases Nat.lt_trichotomy i j with h | h | h
  · exact absurd ⟨hir, hin⟩ (hjb i c h hi)
  · exact h
  · exact absurd ⟨hjr, hjn⟩ (hib j d h hj)

theorem invoke_calls (act : Nat → World → RunResult) (cfg : config) (rest : List String)
    (w : World) (i : Nat) (c : Command) (run : config → List String → World → RunResult) :
    (invoke act cfg rest w i c run).calls
      = match c.Flag rest with
        | none => []
        | some args => [⟨i, cfg, args, w⟩] := by
  unfold invoke
  cases c.Flag rest with
  | none => rfl
  | some args =>
    simp only
    cases run cfg args w with
    | returned v => exact exit_calls act _ _ v
    | exited code v => rfl

theorem dispatch_calls_cases (act : Nat → World → RunResult) (cfg : config) (a : String)
    (rest : List String) (w : World) (cs : List Command) :
    ((∀ c ∈ cs, ¬ (c.Runnable = true ∧ c.Name = a)) ∧
        dispatch act cfg a rest w cs 0 = exit act [] [.unknownSubcommand a] (setExitStatus 2 w)) ∨
    (∃ i c, IsFirstMatch cs a i c ∧ c.Flag rest = none ∧
        (dispatch act cfg a rest w cs 0).calls = []) ∨
    (∃ i c args, IsFirstMatch cs a i c ∧ c.Flag rest = some args ∧
        (dispatch act cfg a rest w cs 0).calls = [⟨i, cfg, args, w⟩]) := by
  rcases first_match_cases cs a with h | ⟨pre, c, post, run, hcs, hpre, hn, hr⟩
  · exact Or.inl ⟨h, dispatch_no_match act cfg a rest w cs 0 h⟩
  · right
    have hfm := isFirstMatch_of_split pre c post a run hpre hn hr
    have hd := dispatch_first_match act cfg a rest w pre c post 0 run hpre hn hr
    rw [Nat.zero_add] at hd
    rw [hcs, hd, invoke_calls]
    cases hf : c.Flag rest with
    | none => exact Or.inl ⟨pre.length, c, hfm, hf, rfl⟩
    | some args => exact Or.inr ⟨pre.length, c, args, hfm, hf, rfl⟩

theorem main_eq_dispatch (commands : List Command) (act : Nat → World → RunResult)
    (mainUser a : String) (rest : List String) (w : World) (cfg : config) (w1 : World)
    (ha : a ≠ "help") (hcfg : resolveConfig mainUser w = .ok (cfg, w1)) :
    main commands act mainUser (a :: rest) w = dispatch act cfg a rest w1 commands 0 := by
  simp only [main, if_neg ha, hcfg]

theorem main_eq_fatal (commands : List Command) (act : Nat → World → RunResult)
    (mainUser a : String) (rest : List String) (w : World) (f : Fatal) (w1 : World)
    (ha : a ≠ "help") (hcfg : resolveConfig mainUser w = .error (f, w1)) :
    main commands act mainUser (a :: rest) w = ⟨[], [], [.fatal f], .fatal, w1⟩ := by
  simp only [main, if_neg ha, hcfg]

theorem makeWorkDir_keeps (w w1 : World) (h : makeWorkDir w = .ok w1) :
    w1.homeOk = true ∧ w1.cfgFile = w.cfgFile ∧ w1.writeOk = w.writeOk ∧
    w1.exitStatus = w.exitStatus ∧ w1.atexitFuncs = w.atexitFuncs := by
  unfold makeWorkDir at h
  cases hh : w.homeOk with
  | false => simp [hh] at h
  | true =>
    simp only [hh, Bool.not_true, Bool.false_eq_true, if_false] at h
    cases hd : w.workDir <;> simp only [hd, isDir, mkdirAll] at h
    · cases h; simp [hh]
    · cases h
    · by_cases hm : w.mkdirOk = true
      · simp only [hm, if_true] at h
        cases h; simp [hh]
      · simp only [hm] at h
        cases h
    · cases h

theorem resolveConfig_cases (mainUser : String) (w : World) :
    (∃ f w1, resolveConfig mainUser w = .error (f, w1)) ∨
    (∃ w1 c w2, makeWorkDir w = .ok w1 ∧
      ((loadConfig w1 = .ok c ∧ w2 = w1) ∨
        (loadConfig w1 = .error .notExist ∧ saveConfig defaultConfig w1 = some w2 ∧
          c = defaultConfig)) ∧
      (if mainUser ≠ "" then mainUser else c.User) ≠ "" ∧
      resolveConfig mainUser w = .ok (⟨if mainUser ≠ "" then mainUser else c.User⟩, w2)) := by
  unfold resolveConfig
  cases hm : makeWorkDir w with
  | error f => left; exact ⟨f, w, rfl⟩
  | ok w1 =>
    simp only
    cases hl : loadConfig w1 with
    | ok c =>
      simp only
      by_cases hu : mainUser ≠ ""
      · right
        refine ⟨w1, c, w1, rfl, Or.inl ⟨hl, rfl⟩, by simp [hu], ?_⟩
        simp [hu]
      · by_cases hc : c.User = ""
        · left; exact ⟨.noUser, w1, by simp [hu, hc]⟩
        · right
          refine ⟨w1, c, w1, rfl, Or.inl ⟨hl, rfl⟩, by simp [hu, hc], ?_⟩
          simp [hu, hc]
    | error e =>
      cases e with
      | other => left; exact ⟨.loadConfig, w1, rfl⟩
      | notExist =>
        simp only
        cases hs : saveConfig defaultConfig w1 with
        | none => left; exact ⟨.saveConfig, w1, rfl⟩
        | some w2 =>
          simp only
          by_cases hu : mainUser ≠ ""
          · right
            refine ⟨w1, defaultConfig, w2, rfl, Or.inr ⟨hl, hs, rfl⟩, by simp [hu], ?_⟩
            simp [hu]
          · left
            exact ⟨.noUser, w2, by simp [hu, defaultConfig]⟩

theorem foldl_act_keeps_status (act : Nat → World → RunResult) (fs : List Nat) (w : World)
    (h : ∀ f ∈ fs, ∀ v, ∃ v1, act f v = .returned v1 ∧ v1.exitStatus = v.exitStatus) :
    (fs.foldl (fun st f => (act f st).world) w).exitStatus = w.exitStatus := by
  induction fs generalizing w with
  | nil => rfl
  | cons f t ih =>
    simp only [List.foldl_cons]
    obtain ⟨v1, hv, hs⟩ := h f (List.mem_cons_self _ _) w
    rw [ih _ (fun g hg => h g (List.mem_cons_of_mem _ hg)), hv, world_returned]
    exact hs

theorem dispatch_of_isFirstMatch (act : Nat → World → RunResult) (cfg : config) (a : String)
    (rest : List String) (w : World) (cs : List Command) (i : Nat) (c : Command)
    (run : config → List String → World → RunResult)
    (hfm : IsFirstMatch cs a i c) (hrun : c.Run = some run) :
    dispatch act cfg a rest w cs 0 = invoke act cfg rest w i c run := by
  rcases first_match_cases cs a with h | ⟨pre, d, post, r, hcs, hpre, hn, hr⟩
  · exact absurd ⟨hfm.2.1, hfm.2.2.1⟩ (h c (List.getElem?_mem hfm.1))
  · have hsplit := isFirstMatch_of_split pre d post a r hpre hn hr
    rw [← hcs] at hsplit
    have hi := isFirstMatch_unique cs a i pre.length c d hfm hsplit
    have hcd : c = d := Option.some.inj (hfm.1.symm.trans (hi ▸ hsplit.1))
    subst hcd
    have hrr : run = r := Option.some.inj (hrun.symm.trans hr)
    subst hrr
    have hd := dispatch_first_match act cfg a rest w pre c post 0 run hpre hn hr
    rw [Nat.zero_add] at hd
    rw [hcs, hd, hi]

theorem resolveConfig_keeps (mainUser : String) (w : World) (cfg : config) (w1 : World)
    (h : resolveConfig mainUser w = .ok (cfg, w1)) :
    cfg.User ≠ "" ∧ w1.exitStatus = w.exitStatus ∧ w1.atexitFuncs = w.atexitFuncs := by
  rcases resolveConfig_cases mainUser w with ⟨f, v, hf⟩ | ⟨v, c, v2, hm, hl, hu, hr⟩
  · rw [hf] at h; cases h
  · rw [hr] at h
    cases h
    obtain ⟨_, _, _, he, ha⟩ := makeWorkDir_keeps w v hm
    refine ⟨hu, ?_, ?_⟩
    · rcases hl with ⟨_, rfl⟩ | ⟨_, hs, _⟩
      · exact he
      · unfold saveConfig at hs
        split at hs
        · cases hs; exact he
        · cases hs
    · rcases hl with ⟨_, rfl⟩ | ⟨_, hs, _⟩
      · exact ha
      · unfold saveConfig at hs
        split at hs
        · cases hs; exact ha
        · cases hs

theorem main_calls_cases (commands : List Command) (act : Nat → World → RunResult)
    (mainUser : String) (args : List String) (w : World) :
    (main commands act mainUser args w).calls = [] ∨
    ∃ a rest cfg w1 i c args1, args = a :: rest ∧ a ≠ "help" ∧
      resolveConfig mainUser w = .ok (cfg, w1) ∧ IsFirstMatch commands a i c ∧
      c.Flag rest = some args1 ∧
      (main commands act mainUser args w).calls = [⟨i, cfg, args1, w1⟩] := by
  cases args with
  | nil => left; rfl
  | cons a rest =>
    by_cases ha : a = "help"
    · left
      simp only [main, if_pos ha]
      cases help commands rest with
      | mk out t => cases t <;> rfl
    · rcases resolveConfig_cases mainUser w with ⟨f, v, hf⟩ | ⟨v, c, v2, _, _, _, hr⟩
      · left; rw [main_eq_fatal commands act mainUser a rest w f v ha hf]
      · rw [main_eq_dispatch commands act mainUser a rest w _ v2 ha hr]
        rcases dispatch_calls_cases act ⟨if mainUser ≠ "" then mainUser else c.User⟩ a rest v2
          commands with ⟨_, h⟩ | ⟨i, d, _, _, h⟩ | ⟨i, d, args1, hfm, hfl, h⟩
        · left; rw [h]; exact exit_calls act _ _ _
        · left; exact h
        · right
          exact ⟨a, rest, _, v2, i, d, args1, rfl, ha, hr, hfm, hfl, h⟩

/-- C1, as amended. Once the configuration is resolved, `main` invokes an entry
point exactly when a runnable descriptor is named by the first argument and the
local flags of the first such descriptor parse; that descriptor is the one
invoked, once, and a descriptor whose name is not the argument is never invoked. -/
theorem main_dispatch_first_exact_match (commands : List Command)
    (act : Nat → World → RunResult) (mainUser a : String) (rest : List String) (w : World)
    (cfg : config) (w1 : World) (ha : a ≠ "help")
    (hcfg : resolveConfig mainUser w = .ok (cfg, w1)) :
    ((main commands act mainUser (a :: rest) w).calls ≠ [] ↔
      ∃ i c, IsFirstMatch commands a i c ∧ (c.Flag rest).isSome = true) ∧
    ((∃ c ∈ commands, c.Runnable = true ∧ c.Name = a) ↔ ∃ i c, IsFirstMatch commands a i c) ∧
    (∀ k ∈ (main commands act mainUser (a :: rest) w).calls,
      ∃ c args, IsFirstMatch commands a k.idx c ∧ c.Flag rest = some args ∧
        (main commands act mainUser (a :: rest) w).calls = [⟨k.idx, cfg, args, w1⟩]) ∧
    (main commands act mainUser (a :: rest) w).calls.length ≤ 1 ∧
    ((∀ c ∈ commands, c.Runnable = true → c.Name ≠ a) →
      (main commands act mainUser (a :: rest) w).calls = []) ∧
    (∀ k ∈ (main commands act mainUser (a :: rest) w).calls,
      ∀ c, commands[k.idx]? = some c → c.Name = a) ∧
    (∀ i c, IsFirstMatch commands a i c → c.Flag rest = none →
      main commands act mainUser (a :: rest) w
        = ⟨[], [], [.commandUsage i], .exit 2, w1⟩) ∧
    (∀ i c run args, IsFirstMatch commands a i c → c.Run = some run →
      c.Flag rest = some args →
      main commands act mainUser (a :: rest) w
        = match run cfg args w1 with
          | .returned w2 => exit act [⟨i, cfg, args, w1⟩] [] w2
          | .exited code w2 => ⟨[⟨i, cfg, args, w1⟩], [], [], .exit code, w2⟩) := by
  rw [main_eq_dispatch commands act mainUser a rest w cfg w1 ha hcfg]
  have hfail : ∀ i c, IsFirstMatch commands a i c → c.Flag rest = none →
      dispatch act cfg a rest w1 commands 0 = ⟨[], [], [.commandUsage i], .exit 2, w1⟩ := by
    intro i c hfm hfl
    cases hrun : c.Run with
    | none =>
      have := hfm.2.1
      simp [Command.Runnable, hrun] at this
    | some run =>
      rw [dispatch_of_isFirstMatch act cfg a rest w1 commands i c run hfm hrun, invoke]
      simp only [hfl]
  have hgood : ∀ i c run args, IsFirstMatch commands a i c → c.Run = some run →
      c.Flag rest = some args →
      dispatch act cfg a rest w1 commands 0
        = match run cfg args w1 with
          | .returned w2 => exit act [⟨i, cfg, args, w1⟩] [] w2
          | .exited code w2 => ⟨[⟨i, cfg, args, w1⟩], [], [], .exit code, w2⟩ := by
    intro i c run args hfm hrun hfl
    rw [dispatch_of_isFirstMatch act cfg a rest w1 commands i c run hfm hrun, invoke]
    simp only [hfl]
  have hex : (∃ c ∈ commands, c.Runnable = true ∧ c.Name = a) ↔
      ∃ i c, IsFirstMatch commands a i c := by
    constructor
    · rintro ⟨c, hc, hcr⟩
      rcases first_match_cases commands a with h | ⟨pre, d, post, run, hcs, hpre, hn, hr⟩
      · exact absurd hcr (h c hc)
      · exact ⟨pre.length, d, hcs ▸ isFirstMatch_of_split pre d post a run hpre hn hr⟩
    · rintro ⟨i, c, hi, hr, hn, _⟩
      exact ⟨c, List.getElem?_mem hi, hr, hn⟩
  rcases dispatch_calls_cases act cfg a rest w1 commands with
    ⟨hno, h⟩ | ⟨i, d, hfm, hfl, h⟩ | ⟨i, d, args1, hfm, hfl, h⟩
  · have hc : (dispatch act cfg a rest w1 commands 0).calls = [] := by
      rw [h]; exact exit_calls act _ _ _
    refine ⟨?_, hex, ?_, ?_, ?_, ?_, hfail, hgood⟩ <;> rw [hc]
    rotate_left
    · simp
    · simp
    · exact fun _ => rfl
    · simp
    constructor
    · intro hne; exact absurd rfl hne
    · rintro ⟨i, c, ⟨hi, hr, hn, _⟩, _⟩
      exact absurd ⟨hr, hn⟩ (hno c (List.getElem?_mem hi))
  · refine ⟨?_, hex, ?_, ?_, ?_, ?_, hfail, hgood⟩ <;> rw [h]
    rotate_left
    · simp
    · simp
    · exact fun _ => rfl
    · simp
    constructor
    · intro hne; exact absurd rfl hne
    · rintro ⟨j, c, hj, hsome⟩
      have hij := isFirstMatch_unique commands a i j d c hfm hj
      subst hij
      have hdc : d = c := by
        have := hfm.1.symm.trans hj.1
        exact Option.some.inj this
      subst hdc
      rw [hfl] at hsome
      cases hsome
  · refine ⟨?_, hex, ?_, ?_, ?_, ?_, hfail, hgood⟩ <;> rw [h]
    · constructor
      · intro _; exact ⟨i, d, hfm, by simp [hfl]⟩
      · intro _; simp
    · intro k hk
      rw [List.mem_singleton] at hk
      subst hk
      exact ⟨d, args1, hfm, hfl, rfl⟩
    · simp
    · intro hall
      exact absurd hfm.2.2.1 (hall d (List.getElem?_mem hfm.1) hfm.2.1)
    · intro k hk c hc
      rw [List.mem_singleton] at hk
      subst hk
      have hdc : d = c := Option.some.inj (hfm.1.symm.trans hc)
      rw [← hdc]; exact hfm.2.2.1

/-- C9. An argument that names no runnable command: no entry point is invoked,
the status is raised to 2, and the process ends through `exit`, which runs the
registered cleanup actions (all of them when each returns, up to the first one
that ends the process otherwise); from the state of process start, where none is
registered, the exit code is 2. -/
theorem main_unknown_subcommand (commands : List Command) (act : Nat → World → RunResult)
    (mainUser a : String) (rest : List String) (w : World) (cfg : config) (w1 : World)
    (ha : a ≠ "help") (hcfg : resolveConfig mainUser w = .ok (cfg, w1))
    (hno : ∀ c ∈ commands, ¬ (c.Runnable = true ∧ c.Name = a)) :
    main commands act mainUser (a :: rest) w
      = exit act [] [.unknownSubcommand a] (setExitStatus 2 w1) ∧
    (main commands act mainUser (a :: rest) w).calls = [] ∧
    (∃ t, w.atexitFuncs = (main commands act mainUser (a :: rest) w).cleanups ++ t) ∧
    (AllReturn act w.atexitFuncs →
      (main commands act mainUser (a :: rest) w).cleanups = w.atexitFuncs ∧
      (main commands act mainUser (a :: rest) w).world
        = w.atexitFuncs.foldl (fun st f => (act f st).world) (setExitStatus 2 w1) ∧
      (main commands act mainUser (a :: rest) w).term
        = .exit (main commands act mainUser (a :: rest) w).world.exitStatus) ∧
    (setExitStatus 2 w1).exitStatus = max w.exitStatus 2 ∧
    (w.exitStatus ≤ 2 →
      (∀ f ∈ w.atexitFuncs, ∀ v, ∃ v1, act f v = .returned v1 ∧
        v1.exitStatus = v.exitStatus) →
      (main commands act mainUser (a :: rest) w).term = .exit 2) ∧
    (w.exitStatus = 0 → w.atexitFuncs = [] →
      (main commands act mainUser (a :: rest) w).term = .exit 2 ∧
      (main commands act mainUser (a :: rest) w).cleanups = []) ∧
    (∀ pre f post code v, w.atexitFuncs = pre ++ f :: post → AllReturn act pre →
      act f (pre.foldl (fun st g => (act g st).world) (setExitStatus 2 w1)) = .exited code v →
      main commands act mainUser (a :: rest) w
        = ⟨[], pre ++ [f], [.unknownSubcommand a], .exit code, v⟩) := by
  obtain ⟨_, he, hf⟩ := resolveConfig_keeps mainUser w cfg w1 hcfg
  have hm : main commands act mainUser (a :: rest) w
      = exit act [] [.unknownSubcommand a] (setExitStatus 2 w1) := by
    rw [main_eq_dispatch commands act mainUser a rest w cfg w1 ha hcfg]
    exact dispatch_no_match act cfg a rest w1 commands 0 hno
  have hfs : (setExitStatus 2 w1).atexitFuncs = w.atexitFuncs := by
    rw [setExitStatus_eq_with]; exact hf
  have hst : (setExitStatus 2 w1).exitStatus = max w.exitStatus 2 := by
    rw [setExitStatus_exitStatus, he]
  have hret : AllReturn act w.atexitFuncs →
      exit act [] [.unknownSubcommand a] (setExitStatus 2 w1)
        = ⟨[], w.atexitFuncs, [.unknownSubcommand a],
            .exit (w.atexitFuncs.foldl (fun st f => (act f st).world)
              (setExitStatus 2 w1)).exitStatus,
            w.atexitFuncs.foldl (fun st f => (act f st).world) (setExitStatus 2 w1)⟩ := by
    intro h
    rw [exit_of_returns act _ _ _ (by rw [hfs]; exact h), hfs]
  rw [hm]
  refine ⟨rfl, exit_calls act _ _ _, ?_, ?_, hst, ?_, ?_, ?_⟩
  rotate_right
  · intro pre f post code v hw h hstop
    exact exit_of_stop act _ _ _ pre f post code v (by rw [hfs]; exact hw) h hstop
  · obtain ⟨k, t, hk, hl⟩ := runAtexit_log act (setExitStatus 2 w1).atexitFuncs
      (setExitStatus 2 w1) []
    refine ⟨t, ?_⟩
    rw [exit_cleanups, hl, List.nil_append, ← hfs]
    exact hk
  · intro h
    rw [hret h]
    exact ⟨rfl, rfl, rfl⟩
  · intro hle hkeep
    have hall : AllReturn act w.atexitFuncs := by
      intro f hf1 v
      obtain ⟨v1, hv, _⟩ := hkeep f hf1 v
      exact ⟨v1, hv⟩
    rw [hret hall]
    simp only
    rw [foldl_act_keeps_status act _ _ hkeep, hst, max_eq_right hle]
  · intro h0 hnil
    have hall : AllReturn act w.atexitFuncs := by
      rw [hnil]; intro f hf1; cases hf1
    rw [hret hall, hnil]
    simp only [List.foldl_nil]
    rw [hst, h0]
    exact ⟨rfl, trivial⟩

theorem foldl_append_string (l : List String) (a : String) :
    l.foldl (fun r s => r ++ s) a = a ++ l.foldl (fun r s => r ++ s) "" := by
  induction l generalizing a with
  | nil => simp
  | cons x t ih =>
    simp only [List.foldl_cons]
    rw [ih (a ++ x), ih ("" ++ x), String.empty_append, String.append_assoc]

theorem usageRows_eq (cs : List Command) :
    usageRows cs = String.join ((cs.filter Command.Runnable).map usageRow) := by
  induction cs with
  | nil => rfl
  | cons c t ih =>
    rw [usageRows, ih]
    cases hr : c.Runnable with
    | true =>
      simp only [List.filter_cons, hr, if_true, List.map_cons, String.join, List.foldl_cons]
      rw [String.empty_append, foldl_append_string _ (usageRow c)]
    | false => simp [List.filter_cons, hr]

theorem helpFind_none (arg : String) (cs : List Command) (i : Nat)
    (h : ∀ c ∈ cs, c.Name ≠ arg) : helpFind arg cs i = none := by
  induction cs generalizing i with
  | nil => rfl
  | cons c t ih =>
    rw [helpFind, if_neg (h c (List.mem_cons_self _ _))]
    exact ih _ (fun d hd => h d (List.mem_cons_of_mem _ hd))

/-- C4. Every entry point `main` invokes gets a non-empty `cfg.User`; when the
merged user is empty `main` ends through `log.Fatalf` and invokes nothing. -/
theorem main_never_runs_with_empty_user (commands : List Command)
    (act : Nat → World → RunResult) (mainUser : String) (args : List String) (w : World) :
    (∀ k ∈ (main commands act mainUser args w).calls, k.cfg.User ≠ "") ∧
    (∀ a rest w1 c w2, args = a :: rest → a ≠ "help" → makeWorkDir w = .ok w1 →
      ((loadConfig w1 = .ok c ∧ w2 = w1) ∨
        (loadConfig w1 = .error .notExist ∧ saveConfig defaultConfig w1 = some w2 ∧
          c = defaultConfig)) →
      (if mainUser ≠ "" then mainUser else c.User) = "" →
      main commands act mainUser args w = ⟨[], [], [.fatal .noUser], .fatal, w2⟩) := by
  constructor
  · intro k hk
    rcases main_calls_cases commands act mainUser args w with
      h | ⟨a, rest, cfg, w1, i, c, args1, _, _, hr, _, _, h⟩
    · rw [h] at hk; cases hk
    · rw [h, List.mem_singleton] at hk
      subst hk
      exact (resolveConfig_keeps mainUser w cfg w1 hr).1
  · intro a rest w1 c w2 hargs ha hm hl hu
    subst hargs
    apply main_eq_fatal commands act mainUser a rest w .noUser w2 ha
    have hmu : mainUser = "" := by
      by_contra hne
      rw [if_pos hne] at hu
      exact hne hu
    have hcu : c.User = "" := by
      rw [hmu] at hu; simpa using hu
    unfold resolveConfig
    rw [hm]
    rcases hl with ⟨hl, rfl⟩ | ⟨hl, hs, rfl⟩
    · simp [hl, hmu, hcu]
    · simp only [hl, hs]
      simp [hmu, defaultConfig]

/-- C5, the code at the failing input. With no user stored and no `-u`, the
arguments `user <name>` end in the "No user set" fatal error for every registry:
no entry point is reached, neither with an empty stored user nor on a first run. -/
theorem main_user_command_without_user (commands : List Command)
    (act : Nat → World → RunResult) (name : String) (mkdirOk writeOk : Bool) :
    main commands act "" ["user", name]
        (World.start true .dir mkdirOk (.holds ⟨""⟩) writeOk)
      = ⟨[], [], [.fatal .noUser], .fatal,
          World.start true .dir mkdirOk (.holds ⟨""⟩) writeOk⟩ ∧
    main commands act "" ["user", name] (World.start true .notExist true .absent true)
      = ⟨[], [], [.fatal .noUser], .fatal,
          World.start true .dir true (.holds defaultConfig) true⟩ := by
  constructor
  · apply main_eq_fatal _ _ _ _ _ _ _ _ (by decide)
    simp [resolveConfig, makeWorkDir, isDir, loadConfig, World.start]
  · apply main_eq_fatal _ _ _ _ _ _ _ _ (by decide)
    simp [resolveConfig, makeWorkDir, isDir, mkdirAll, loadConfig, saveConfig, World.start,
      defaultConfig]

/-- C6, as amended. With a stored configuration of user `L` the entry point gets
the `-u` value `F` when that value is not empty and `L` otherwise (no `-u`, or
`-u` with the empty value), and it is started in a state whose config file still
holds `L`. -/
theorem main_merges_user_flag (commands : List Command) (act : Nat → World → RunResult)
    (F L a : String) (rest : List String) (w w1 : World)
    (ha : a ≠ "help") (hw : makeWorkDir w = .ok w1) (hL : w.cfgFile = .holds ⟨L⟩)
    (hE : (if F ≠ "" then F else L) ≠ "") :
    resolveConfig F w = .ok (⟨if F ≠ "" then F else L⟩, w1) ∧
    w1.cfgFile = .holds ⟨L⟩ ∧
    (∀ k ∈ (main commands act F (a :: rest) w).calls,
      k.cfg.User = (if F ≠ "" then F else L) ∧ k.world = w1 ∧
        k.world.cfgFile = .holds ⟨L⟩) ∧
    (∀ i c args, IsFirstMatch commands a i c → c.Flag rest = some args →
      (main commands act F (a :: rest) w).calls
        = [⟨i, ⟨if F ≠ "" then F else L⟩, args, w1⟩]) ∧
    (∀ argv, parseCommandLine argv = some (F, a :: rest) →
      mainArgv commands act argv w = some (main commands act F (a :: rest) w)) := by
  obtain ⟨hh, hc, _, _, _⟩ := makeWorkDir_keeps w w1 hw
  have hfile : w1.cfgFile = .holds ⟨L⟩ := by rw [hc, hL]
  have hres : resolveConfig F w = .ok (⟨if F ≠ "" then F else L⟩, w1) := by
    unfold resolveConfig
    rw [hw]
    have hl : loadConfig w1 = .ok ⟨L⟩ := by simp [loadConfig, hh, hfile]
    simp only [hl]
    by_cases hF : F ≠ ""
    · simp [hF]
    · simp only [hF, if_false] at hE ⊢
      simp [hE]
  have hmain := main_eq_dispatch commands act F a rest w _ w1 ha hres
  have hcases := dispatch_calls_cases act ⟨if F ≠ "" then F else L⟩ a rest w1 commands
  rw [← hmain] at hcases
  refine ⟨hres, hfile, ?_, ?_, ?_⟩
  rotate_left 2
  · intro argv h
    simp only [mainArgv, h, Option.map_some']
  · intro k hk
    rcases hcases with ⟨_, h⟩ | ⟨i, d, _, _, h⟩ | ⟨i, d, args1, _, _, h⟩
    · rw [h, exit_calls] at hk; cases hk
    · rw [h] at hk; cases hk
    · rw [h, List.mem_singleton] at hk
      subst hk
      exact ⟨rfl, rfl, hfile⟩
  · intro i c args hfm hfl
    rcases hcases with ⟨hno, _⟩ | ⟨j, d, hj, hjf, _⟩ | ⟨j, d, args1, hj, hjf, h⟩
    · exact absurd ⟨hfm.2.1, hfm.2.2.1⟩ (hno c (List.getElem?_mem hfm.1))
    · have hij := isFirstMatch_unique commands a i j c d hfm hj
      subst hij
      have hdc : c = d := Option.some.inj (hfm.1.symm.trans hj.1)
      subst hdc
      rw [hfl] at hjf; cases hjf
    · have hij := isFirstMatch_unique commands a i j c d hfm hj
      subst hij
      have hdc : c = d := Option.some.inj (hfm.1.symm.trans hj.1)
      subst hdc
      rw [hfl] at hjf; cases hjf
      exact h

/-- C8. The paths that do not dispatch: no argument ends with status 2; `help`
alone prints, between the fixed head and tail, one row per runnable command in
registry order, each with the name padded to 11 characters and the short text,
and ends with status 0; `help` with two or more arguments, or with an unknown
name, ends with status 2. -/
theorem main_non_dispatch_exit_status (commands : List Command)
    (act : Nat → World → RunResult) (mainUser : String) (w : World) :
    main commands act mainUser [] w = ⟨[], [], [.usage], .exit 2, w⟩ ∧
    main commands act mainUser ["help"] w
      = ⟨[], [], [.printUsage (printUsage commands)], .returned, w⟩ ∧
    (main commands act mainUser ["help"] w).term.code = 0 ∧
    printUsage commands
      = usageHead ++ String.join ((commands.filter Command.Runnable).map usageRow)
          ++ usageTail ∧
    (∀ x y zs, main commands act mainUser ("help" :: x :: y :: zs) w
      = ⟨[], [], [.helpTooMany], .exit 2, w⟩) ∧
    (∀ x, (∀ c ∈ commands, c.Name ≠ x) →
      main commands act mainUser ["help", x] w
        = ⟨[], [], [.unknownHelpTopic x], .exit 2, w⟩) ∧
    printUsage commands
      = "dm is a command line tool for DailyMile.com.\n\nUsage:\n\n        dm [-u user name] command [arguments]\n\nThe commands are:\n"
        ++ String.join ((commands.filter (fun c => c.Run.isSome)).map
            (fun c => "\n    " ++ padRight c.Name 11 ++ " " ++ c.Short))
        ++ "\n\nUse \"dm help [topic]\" for more information about that topic.\n\n" ∧
    (∀ s n, (padRight s n).data = s.data ++ List.replicate (n - s.length) ' ') ∧
    (∀ (c : Command), (usageRow c).data
      = ['\n', ' ', ' ', ' ', ' '] ++ c.Name.data
          ++ List.replicate (11 - c.Name.length) ' ' ++ [' '] ++ c.Short.data) ∧
    (main commands act mainUser [] w).term.code = 2 ∧
    (∀ x y zs, (main commands act mainUser ("help" :: x :: y :: zs) w).term.code = 2) ∧
    (∀ x, (∀ c ∈ commands, c.Name ≠ x) →
      (main commands act mainUser ["help", x] w).term.code = 2) := by
  have hunk : ∀ x, (∀ c ∈ commands, c.Name ≠ x) →
      main commands act mainUser ["help", x] w
        = ⟨[], [], [.unknownHelpTopic x], .exit 2, w⟩ := by
    intro x hx
    simp [main, help, helpFind_none x commands 0 hx]
  have hrows : printUsage commands
      = usageHead ++ String.join ((commands.filter Command.Runnable).map usageRow)
          ++ usageTail := by
    rw [printUsage, usageRows_eq]
  refine ⟨rfl, rfl, rfl, hrows, fun _ _ _ => rfl, hunk, hrows, fun _ _ => rfl, ?_, rfl,
    fun _ _ _ => rfl, ?_⟩
  · intro c
    simp only [usageRow, padRight, String.data_append, List.append_assoc]
  · intro x hx
    rw [hunk x hx]; rfl

/-- Instance of C10: the usage line `user <user name>` is named `user`. -/
theorem Name_is_longest_spaceless_start_witness :
    ' ' ∉ sampleUser.Name.data ∧ sampleUser.Name = "user" ∧ sampleTopic.Name = "topic" :=
  ⟨(Name_is_longest_spaceless_start sampleUser).1, by decide,
    ((Name_is_longest_spaceless_start sampleTopic).2.2.2.1 (by decide))⟩

/-- Instance of C3: a 0 or an `errorf` after a 2 leaves the status at 2. -/
theorem setExitStatus_is_max_witness :
    (setExitStatus 2 aliceWorld).exitStatus = max aliceWorld.exitStatus 2 ∧
    setExitStatus 0 (setExitStatus 2 aliceWorld) = setExitStatus 2 aliceWorld ∧
    (errorf (setExitStatus 2 aliceWorld)).exitStatus = (setExitStatus 2 aliceWorld).exitStatus ∧
    (errorf (setExitStatus 2 aliceWorld)).exitStatus = 2 :=
  ⟨(setExitStatus_is_max aliceWorld 2).1,
    (setExitStatus_is_max (setExitStatus 2 aliceWorld) 0).2.2.2.1 (by decide),
    (setExitStatus_is_max aliceWorld 2).2.2.2.2.2.2, by decide⟩

/-- Counterexample to C2 as stated: after the single call `setExitStatus(-1)` the
largest value passed is -1, and the status is 0. -/
theorem setExitStatus_negative_counterexample :
    (-1 : Int) ∈ [(-1 : Int)] ∧
    (setExitStatusAll [-1] aliceWorld).exitStatus = 0 ∧
    (setExitStatusAll [-1] aliceWorld).exitStatus ≠ -1 := by
  decide

/-- Instance of C2 as amended: the calls 1, 2, 0 and the calls 0, 2, 1 both end at 2. -/
theorem setExitStatusAll_from_zero_witness :
    aliceWorld.exitStatus = 0 ∧
    (setExitStatusAll [1, 2, 0] aliceWorld).exitStatus = List.foldl max 0 [1, 2, 0] ∧
    (setExitStatusAll [0, 2, 1] aliceWorld).exitStatus
      = (setExitStatusAll [1, 2, 0] aliceWorld).exitStatus ∧
    (setExitStatusAll [1, 2, 0] aliceWorld).exitStatus = 2 :=
  ⟨rfl, (setExitStatusAll_from_zero [1, 2, 0] aliceWorld rfl).1,
    (setExitStatusAll_from_zero [1, 2, 0] aliceWorld rfl).2.2.2.2.2 [0, 2, 1] (by decide),
    by decide⟩

/-- Counterexample to C7 as stated: after `atexit` of 8 and of 5, `exit` calls 8
only, because action 8 ends the process (with status 4); and action 10, which
action 9 registers while `exit` runs, is never called. -/
theorem exit_cleanups_counterexample :
    (atexit 5 (atexit 8 aliceWorld)).atexitFuncs = [8, 5] ∧
    (exit sampleAct [] [] (atexit 5 (atexit 8 aliceWorld))).cleanups = [8] ∧
    (exit sampleAct [] [] (atexit 5 (atexit 8 aliceWorld))).term = .exit 4 ∧
    (exit sampleAct [] [] (atexit 9 aliceWorld)).cleanups = [9] ∧
    (exit sampleAct [] [] (atexit 9 aliceWorld)).world.atexitFuncs = [9, 10] := by
  decide

/-- Instance of C7 as amended: after `atexit` of 5 and of 7, which both return,
`exit` runs 5 then 7 and ends with the status 3 that action 7 raised. -/
theorem exit_runs_cleanups_in_order_witness :
    (exit sampleAct [] [] (atexit 7 (atexit 5 aliceWorld))).cleanups = [5, 7] ∧
    (exit sampleAct [] [] (atexit 7 (atexit 5 aliceWorld))).term = .exit 3 :=
  ⟨(exit_runs_cleanups_in_order sampleAct [] [] aliceWorld [5, 7]).2.2.2.1
      (by
        intro f hf v
        simp only [List.mem_cons, List.mem_singleton, List.not_mem_nil, or_false] at hf
        rcases hf with rfl | rfl
        · exact ⟨_, rfl⟩
        · exact ⟨_, rfl⟩),
    by decide⟩

/-- Counterexample to C1 as stated: `user -x` names the runnable command `user`
and no entry point is invoked, because the local flag `-x` does not parse; and
`use` is a proper start of the name `user` and still invokes an entry point. -/
theorem main_dispatch_counterexample :
    sampleUser.Runnable = true ∧ sampleUser.Name = "user" ∧
    resolveConfig "" aliceWorld = .ok (⟨"alice"⟩, aliceWorld) ∧
    (main [sampleUser] sampleAct "" ["user", "-x"] aliceWorld).calls = [] ∧
    (main [sampleUser] sampleAct "" ["user", "-x"] aliceWorld).term = .exit 2 ∧
    sampleUse.Name = "use" ∧ "user" = "use" ++ "r" ∧
    (main [sampleUser, sampleUse] sampleAct "" ["use"] aliceWorld).calls
      = [⟨1, ⟨"alice"⟩, [], aliceWorld⟩] := by
  refine ⟨by decide, by decide, rfl, by decide, by decide, by decide, by decide, by decide⟩

/-- Instance of C1 as amended: `user bob` invokes the first descriptor, once. -/
theorem main_dispatch_first_exact_match_witness :
    "user" ≠ "help" ∧ resolveConfig "" aliceWorld = .ok (⟨"alice"⟩, aliceWorld) ∧
    (main [sampleUser, sampleUse] sampleAct "" ["user", "bob"] aliceWorld).calls.length ≤ 1 ∧
    (main [sampleUser, sampleUse] sampleAct "" ["user", "bob"] aliceWorld).calls
      = [⟨0, ⟨"alice"⟩, ["bob"], aliceWorld⟩] ∧
    (main [sampleUser, sampleUse] sampleAct "" ["USER", "bob"] aliceWorld).calls = [] ∧
    (main [sampleUser] sampleAct "" ["use", "bob"] aliceWorld).calls = [] ∧
    main [sampleUser, sampleUse] sampleAct "" ["user", "-x"] aliceWorld
      = ⟨[], [], [.commandUsage 0], .exit 2, aliceWorld⟩ :=
  ⟨by decide, rfl,
    (main_dispatch_first_exact_match [sampleUser, sampleUse] sampleAct "" "user" ["bob"]
      aliceWorld ⟨"alice"⟩ aliceWorld (by decide) rfl).2.2.2.1,
    by decide,
    (main_dispatch_first_exact_match [sampleUser, sampleUse] sampleAct "" "USER" ["bob"]
      aliceWorld ⟨"alice"⟩ aliceWorld (by decide) rfl).2.2.2.2.1 (by decide),
    by decide,
    (main_dispatch_first_exact_match [sampleUser, sampleUse] sampleAct "" "user" ["-x"]
      aliceWorld ⟨"alice"⟩ aliceWorld (by decide) rfl).2.2.2.2.2.2.1 0 sampleUser
      ⟨rfl, rfl, by decide, by intro j d hj; omega⟩ (by decide)⟩

/-- Instance of C9: `sync` names no command of the sample registry. -/
theorem main_unknown_subcommand_witness :
    "sync" ≠ "help" ∧ resolveConfig "" aliceWorld = .ok (⟨"alice"⟩, aliceWorld) ∧
    (main [sampleUser, sampleTopic] sampleAct "" ["sync"] aliceWorld).calls = [] ∧
    (main [sampleUser, sampleTopic] sampleAct "" ["sync"] aliceWorld).term = .exit 2 ∧
    (main [sampleUser, sampleTopic] sampleAct "" ["topic"] aliceWorld).term = .exit 2 :=
  ⟨by decide, rfl,
    (main_unknown_subcommand [sampleUser, sampleTopic] sampleAct "" "sync" [] aliceWorld
      ⟨"alice"⟩ aliceWorld (by decide) rfl (by decide)).2.1,
    ((main_unknown_subcommand [sampleUser, sampleTopic] sampleAct "" "sync" [] aliceWorld
      ⟨"alice"⟩ aliceWorld (by decide) rfl (by decide)).2.2.2.2.2.2.1 rfl rfl).1,
    ((main_unknown_subcommand [sampleUser, sampleTopic] sampleAct "" "topic" [] aliceWorld
      ⟨"alice"⟩ aliceWorld (by decide) rfl (by decide)).2.2.2.2.2.2.1 rfl rfl).1⟩

/-- Instance of C4: the call made for `user bob` carries `alice`; with an empty
stored user the run is fatal. -/
theorem main_never_runs_with_empty_user_witness :
    (⟨0, ⟨"alice"⟩, ["bob"], aliceWorld⟩ : Call).cfg.User ≠ "" ∧
    main [sampleUser] sampleAct "" ["user", "bob"] nobodyWorld
      = ⟨[], [], [.fatal .noUser], .fatal, nobodyWorld⟩ :=
  ⟨(main_never_runs_with_empty_user [sampleUser] sampleAct "" ["user", "bob"] aliceWorld).1
      ⟨0, ⟨"alice"⟩, ["bob"], aliceWorld⟩ (by decide),
    (main_never_runs_with_empty_user [sampleUser] sampleAct "" ["user", "bob"] nobodyWorld).2
      "user" ["bob"] nobodyWorld ⟨""⟩ nobodyWorld rfl (by decide) rfl (Or.inl ⟨rfl, rfl⟩)
      (by decide)⟩

/-- Counterexample to C6 as stated: in `dm -u "" user x` the flag is given, with
the empty value, and with stored user `alice` the entry point gets `alice`. -/
theorem main_empty_user_flag_counterexample :
    flagSetParse [("u", false)] none [] ["-u", "", "user", "x"]
      = some ([("u", "")], ["user", "x"]) ∧
    flagGiven "u" [("u", "")] = true ∧
    parseCommandLine ["-u", "", "user", "x"] = some ("", ["user", "x"]) ∧
    aliceWorld.cfgFile = .holds ⟨"alice"⟩ ∧
    (mainArgv [sampleUser] sampleAct ["-u", "", "user", "x"] aliceWorld).map Outcome.calls
      = some [⟨0, ⟨"alice"⟩, ["x"], aliceWorld⟩] ∧
    ("alice" : String) ≠ "" := by
  decide

/-- Instance of C6 as amended: stored `alice` without `-u` gives `alice`; with `-u bob` it
gives `bob`, and the file still holds `alice`. -/
theorem main_merges_user_flag_witness :
    "user" ≠ "help" ∧ makeWorkDir aliceWorld = .ok aliceWorld ∧
    aliceWorld.cfgFile = .holds ⟨"alice"⟩ ∧
    (main [sampleUser] sampleAct "" ["user", "x"] aliceWorld).calls
      = [⟨0, ⟨"alice"⟩, ["x"], aliceWorld⟩] ∧
    (main [sampleUser] sampleAct "bob" ["user", "x"] aliceWorld).calls
      = [⟨0, ⟨"bob"⟩, ["x"], aliceWorld⟩] :=
  ⟨by decide, rfl, rfl,
    (main_merges_user_flag [sampleUser] sampleAct "" "alice" "user" ["x"] aliceWorld
      aliceWorld (by decide) rfl rfl (by decide)).2.2.2.1 0 sampleUser ["x"]
      ⟨rfl, rfl, by decide, by intro j d hj; omega⟩ rfl,
    (main_merges_user_flag [sampleUser] sampleAct "bob" "alice" "user" ["x"] aliceWorld
      aliceWorld (by decide) rfl rfl (by decide)).2.2.2.1 0 sampleUser ["x"]
      ⟨rfl, rfl, by decide, by intro j d hj; omega⟩ rfl⟩

/-- Instance of C8: `help nonexistent` ends with status 2, `help` with status 0. -/
theorem main_non_dispatch_exit_status_witness :
    (main [sampleUser, sampleTopic] sampleAct "" ["help", "nonexistent"] aliceWorld).term
      = .exit 2 ∧
    (main [sampleUser, sampleTopic] sampleAct "" ["help"] nobodyWorld).term.code = 0 ∧
    printUsage [sampleUser, sampleTopic]
      = usageHead ++ String.join [usageRow sampleUser] ++ usageTail :=
  ⟨congrArg Outcome.term
      ((main_non_dispatch_exit_status [sampleUser, sampleTopic] sampleAct "" aliceWorld).2.2.2.2.2.1
        "nonexistent" (by decide)),
    (main_non_dispatch_exit_status [sampleUser, sampleTopic] sampleAct "" nobodyWorld).2.2.1,
    (main_non_dispatch_exit_status [sampleUser, sampleTopic] sampleAct "" nobodyWorld).2.2.2.1⟩

end Dm
